import Mathlib

/-
Verification of the core logic of omdb_rym (src/omdb_rym/omdb_rym.py): the
identifier codec, the sweep/ingestion loop, the fuzzy cross-reference
matching, and the report selection.  Python values are embedded shallowly:
strings are lists of characters, machine integers are Lean Int/Nat (Python
ints are unbounded, so no wrap-around modelling is needed), raised
exceptions are Except values, and the external collaborators (the OMDb
fetch, the stored CSV, the browser search) are explicit parameters.
-/

set_option maxRecDepth 8000

namespace OmdbRym

/-- The Python exceptions the source raises or catches: int() raises
ValueError on unparsable text, BeautifulSoup attribute access on None raises
AttributeError, pandas truthiness raises ValueError. -/
inductive PyErr
  | valueError
  | attributeError
  deriving DecidableEq

/-- An argument that the script passes around as either a Python int or a
Python str (the entry point reads start/end as strings; the tests also pass
ints). -/
inductive PyScalar
  | int (i : Int)
  | str (s : List Char)
  deriving DecidableEq

/-! ## Decimal rendering: Python str(int) -/

/-- Fuelled decimal rendering of a natural number, most significant digit
first.  The fuel only bounds the recursion depth; natDigits passes n + 1,
which always suffices since n / 10 < n for n >= 10 (see natDigitsAux_fuel). -/
def natDigitsAux : Nat → Nat → List Char → List Char
  | 0, _, acc => acc
  | fuel + 1, n, acc =>
    if n < 10 then Nat.digitChar n :: acc
    else natDigitsAux fuel (n / 10) (Nat.digitChar (n % 10) :: acc)

/-- The decimal digits of n, as Python str renders a non-negative int
(str(0) is a single character). -/
def natDigits (n : Nat) : List Char :=
  natDigitsAux (n + 1) n []

/-- Python str of an int: a minus sign in front of the digits of the
absolute value when negative. -/
def pyStrInt (i : Int) : List Char :=
  if i < 0 then '-' :: natDigits i.natAbs else natDigits i.toNat

/-- Python str.zfill(width): pad with zeros on the left up to width; a
leading sign stays in front of the padding. -/
def zfill (width : Nat) (s : List Char) : List Char :=
  if width ≤ s.length then s
  else
    match s with
    | c :: rest =>
      if c = '+' ∨ c = '-' then c :: (List.replicate (width - s.length) '0' ++ rest)
      else List.replicate (width - s.length) '0' ++ s
    | [] => List.replicate width '0'

/-! ## Parsing: Python int(str) -/

def isSpaceChar (c : Char) : Bool :=
  c == ' ' || c == '\t' || c == '\n' || c == '\r'

def isDigitChar (c : Char) : Bool :=
  decide ('0' ≤ c) && decide (c ≤ '9')

/-- The value of a digit character. -/
def digitVal (c : Char) : Nat := c.toNat - 48

/-- The value of a big-endian digit string. -/
def digitsVal (l : List Char) : Nat :=
  l.foldl (fun v c => v * 10 + digitVal c) 0

/-- Python int() applied to a string: optional surrounding whitespace, an
optional sign, then decimal digits; none models the ValueError raised on
any other text.  (Underscore digit separators are not modelled.) -/
def pyIntOfString (s : List Char) : Option Int :=
  let t := ((s.dropWhile isSpaceChar).reverse.dropWhile isSpaceChar).reverse
  match t with
  | '-' :: ds =>
    if ds ≠ [] ∧ ds.all isDigitChar then some (-(digitsVal ds : Int)) else none
  | '+' :: ds =>
    if ds ≠ [] ∧ ds.all isDigitChar then some ((digitsVal ds : Int)) else none
  | ds =>
    if ds ≠ [] ∧ ds.all isDigitChar then some ((digitsVal ds : Int)) else none

/-- Python int() applied to an int-or-str argument. -/
def pyIntCoerce : PyScalar → Except PyErr Int
  | .int i => .ok i
  | .str s =>
    match pyIntOfString s with
    | some i => .ok i
    | none => .error .valueError

/-! ## get_imdb_string (the Identifier Codec) -/

/-- The body of get_imdb_string once the argument has been coerced to an
int: the literal prefix tt, then str(int(number)).zfill(7). -/
def get_imdb_string_int (number : Int) : List Char :=
  't' :: 't' :: zfill 7 (pyStrInt number)

/-- get_imdb_string(number): int(number) may raise (propagated, per the
source there is no handler); the result is tt plus the zero-filled decimal
rendering. -/
def get_imdb_string (number : PyScalar) : Except PyErr (List Char) :=
  (pyIntCoerce number).map get_imdb_string_int

/-! ## validate_input -/

/-- A Python try/except ValueError around an int coercion: a ValueError is
replaced by the fallback, any other exception propagates. -/
def exceptValueError (attempt : Except PyErr Int) (fallback : Int) : Except PyErr Int :=
  match attempt with
  | .ok i => .ok i
  | .error .valueError => .ok fallback
  | .error e => .error e

/-- validate_input(start, end): each bound is coerced with int(); a
ValueError is caught and replaced by 0 (start) or 9999999 (end). -/
def validate_input (start endv : PyScalar) : Except PyErr (Int × Int) := do
  let s ← exceptValueError (pyIntCoerce start) 0
  let e ← exceptValueError (pyIntCoerce endv) 9999999
  pure (s, e)

/-! ## Arithmetic facts about the decimal rendering -/

theorem natDigitsAux_acc (fuel : Nat) : ∀ (n : Nat) (acc : List Char),
    natDigitsAux fuel n acc = natDigitsAux fuel n [] ++ acc := by
  induction fuel with
  | zero => intro n acc; simp [natDigitsAux]
  | succ fuel ih =>
    intro n acc
    by_cases h : n < 10
    · simp [natDigitsAux, h]
    · simp only [natDigitsAux, if_neg h]
      rw [ih (n / 10) (Nat.digitChar (n % 10) :: acc),
        ih (n / 10) [Nat.digitChar (n % 10)]]
      simp

theorem natDigitsAux_fuel : ∀ (f1 n f2 : Nat), n < f1 → n < f2 →
    natDigitsAux f1 n [] = natDigitsAux f2 n [] := by
  intro f1
  induction f1 with
  | zero => intro n f2 h1 _; omega
  | succ f1 ih =>
    intro n f2 h1 h2
    cases f2 with
    | zero => omega
    | succ g =>
      by_cases h : n < 10
      · simp [natDigitsAux, h]
      · have hd : n / 10 < n := Nat.div_lt_self (by omega) (by norm_num)
        simp only [natDigitsAux, if_neg h]
        rw [natDigitsAux_acc f1, natDigitsAux_acc g,
          ih (n / 10) g (by omega) (by omega)]

theorem natDigits_lt (n : Nat) (h : n < 10) : natDigits n = [Nat.digitChar n] := by
  simp [natDigits, natDigitsAux, h]

theorem natDigits_ge (n : Nat) (h : 10 ≤ n) :
    natDigits n = natDigits (n / 10) ++ [Nat.digitChar (n % 10)] := by
  have hd : n / 10 < n := Nat.div_lt_self (by omega) (by norm_num)
  have h1 : natDigits n = natDigitsAux n (n / 10) [Nat.digitChar (n % 10)] := by
    simp only [natDigits, natDigitsAux]
    rw [if_neg (by omega)]
  rw [h1, natDigitsAux_acc, natDigitsAux_fuel n (n / 10) (n / 10 + 1) hd (by omega)]
  rfl

theorem digitVal_digitChar : ∀ m : Nat, m < 10 → digitVal (Nat.digitChar m) = m := by
  decide

theorem digitChar_isDigit : ∀ m : Nat, m < 10 →
    '0' ≤ Nat.digitChar m ∧ Nat.digitChar m ≤ '9' := by
  decide

theorem natDigits_chars (n : Nat) : ∀ c ∈ natDigits n, '0' ≤ c ∧ c ≤ '9' := by
  induction n using Nat.strong_induction_on with
  | _ n ih =>
    by_cases h : n < 10
    · rw [natDigits_lt n h]
      intro c hc
      simp only [List.mem_singleton] at hc
      subst hc
      exact digitChar_isDigit n h
    · rw [natDigits_ge n (by omega)]
      intro c hc
      rcases List.mem_append.mp hc with h1 | h1
      · exact ih (n / 10) (Nat.div_lt_self (by omega) (by norm_num)) c h1
      · simp only [List.mem_singleton] at h1
        subst h1
        exact digitChar_isDigit (n % 10) (Nat.mod_lt n (by norm_num))

theorem natDigits_ne_nil (n : Nat) : natDigits n ≠ [] := by
  by_cases h : n < 10
  · rw [natDigits_lt n h]; simp
  · rw [natDigits_ge n (by omega)]; simp

theorem digitsVal_append (l : List Char) (c : Char) :
    digitsVal (l ++ [c]) = digitsVal l * 10 + digitVal c := by
  simp [digitsVal, List.foldl_append]

theorem digitsVal_natDigits (n : Nat) : digitsVal (natDigits n) = n := by
  induction n using Nat.strong_induction_on with
  | _ n ih =>
    by_cases h : n < 10
    · rw [natDigits_lt n h]
      show 0 * 10 + digitVal (Nat.digitChar n) = n
      rw [digitVal_digitChar n h]
      omega
    · rw [natDigits_ge n (by omega), digitsVal_append,
        ih (n / 10) (Nat.div_lt_self (by omega) (by norm_num)),
        digitVal_digitChar (n % 10) (Nat.mod_lt n (by norm_num))]
      omega

theorem digitsVal_replicate_zero (m : Nat) (l : List Char) :
    digitsVal (List.replicate m '0' ++ l) = digitsVal l := by
  induction m with
  | zero => rfl
  | succ m ih =>
    rw [List.replicate_succ, List.cons_append]
    show List.foldl (fun v c => v * 10 + digitVal c) (0 * 10 + digitVal '0')
      (List.replicate m '0' ++ l) = digitsVal l
    have h0 : 0 * 10 + digitVal '0' = 0 := by decide
    rw [h0]
    exact ih

theorem natDigits_length_le : ∀ (d n : Nat), n < 10 ^ (d + 1) →
    (natDigits n).length ≤ d + 1 := by
  intro d
  induction d with
  | zero =>
    intro n h
    rw [natDigits_lt n (by simpa using h)]
    simp
  | succ d ih =>
    intro n h
    by_cases h10 : n < 10
    · rw [natDigits_lt n h10]; simp
    · rw [natDigits_ge n (by omega)]
      have hd : n / 10 < 10 ^ (d + 1) := by
        rw [Nat.div_lt_iff_lt_mul (by norm_num : (0 : Nat) < 10)]
        calc n < 10 ^ (d + 1 + 1) := h
          _ = 10 ^ (d + 1) * 10 := by ring
      have := ih (n / 10) hd
      simp only [List.length_append, List.length_cons, List.length_nil]
      omega

theorem natDigits_length_ge : ∀ (d n : Nat), 10 ^ d ≤ n →
    d + 1 ≤ (natDigits n).length := by
  intro d
  induction d with
  | zero =>
    intro n _
    cases hn : natDigits n with
    | nil => exact absurd hn (natDigits_ne_nil n)
    | cons c cs => simp
  | succ d ih =>
    intro n h
    have hpow : (10 : Nat) ≤ 10 ^ (d + 1) := by
      calc (10 : Nat) = 10 ^ 1 := (pow_one 10).symm
        _ ≤ 10 ^ (d + 1) := Nat.pow_le_pow_right (by norm_num) (by omega)
    have h10 : 10 ≤ n := le_trans hpow h
    rw [natDigits_ge n h10]
    have hdiv : 10 ^ d ≤ n / 10 := by
      rw [Nat.le_div_iff_mul_le (by norm_num : (0 : Nat) < 10)]
      calc 10 ^ d * 10 = 10 ^ (d + 1) := by ring
        _ ≤ n := h
    have := ih (n / 10) hdiv
    simp only [List.length_append, List.length_cons, List.length_nil]
    omega

/-! ## zfill and codec structure -/

theorem zfill_digits (w : Nat) (s : List Char) (hne : s ≠ [])
    (hd : ∀ c ∈ s, '0' ≤ c ∧ c ≤ '9') :
    zfill w s = List.replicate (w - s.length) '0' ++ s := by
  cases s with
  | nil => exact absurd rfl hne
  | cons c rest =>
    have hc := hd c (by simp)
    have hcs : ¬ (c = '+' ∨ c = '-') := by
      rintro (rfl | rfl) <;> revert hc <;> decide
    by_cases hw : w ≤ (c :: rest).length
    · have h0 : w - (c :: rest).length = 0 := by omega
      simp only [zfill, if_pos hw, h0, List.replicate_zero, List.nil_append]
    · simp only [zfill, if_neg hw, if_neg hcs]

theorem zfill_neg_head (w : Nat) (ds : List Char) :
    zfill w ('-' :: ds) =
      '-' :: (List.replicate (w - (ds.length + 1)) '0' ++ ds) := by
  by_cases hw : w ≤ ('-' :: ds).length
  · have h0 : w - (ds.length + 1) = 0 := by
      simp only [List.length_cons] at hw
      omega
    simp only [zfill, if_pos hw, h0, List.replicate_zero, List.nil_append]
  · simp only [zfill, if_neg hw]
    simp

theorem pyStrInt_ofNat (n : Nat) : pyStrInt (n : Int) = natDigits n := by
  have h : ¬ ((n : Int) < 0) := by omega
  simp [pyStrInt, h]

theorem get_imdb_string_int_nat (n : Nat) :
    get_imdb_string_int (n : Int) =
      't' :: 't' :: (List.replicate (7 - (natDigits n).length) '0' ++ natDigits n) := by
  rw [get_imdb_string_int, pyStrInt_ofNat,
    zfill_digits 7 _ (natDigits_ne_nil n) (natDigits_chars n)]

theorem enc_length_nat (n : Nat) (h : n < 10 ^ 7) :
    (get_imdb_string_int (n : Int)).length = 9 := by
  have h1 : (natDigits n).length ≤ 7 := natDigits_length_le 6 n (by simpa using h)
  rw [get_imdb_string_int_nat]
  simp only [List.length_cons, List.length_append, List.length_replicate]
  omega

theorem mem_enc_nat (n : Nat) (c : Char) (hc : c ∈ get_imdb_string_int (n : Int)) :
    c = 't' ∨ ('0' ≤ c ∧ c ≤ '9') := by
  rw [get_imdb_string_int_nat] at hc
  simp only [List.mem_cons, List.mem_append, List.mem_replicate] at hc
  rcases hc with rfl | rfl | ⟨-, rfl⟩ | h
  · exact Or.inl rfl
  · exact Or.inl rfl
  · exact Or.inr (by decide)
  · exact Or.inr (natDigits_chars n c h)

theorem neg_not_mem_enc_nat (n : Nat) : '-' ∉ get_imdb_string_int (n : Int) := by
  intro h
  rcases mem_enc_nat n '-' h with h1 | h1
  · exact absurd h1 (by decide)
  · exact absurd h1.1 (by decide)

theorem get_imdb_string_int_neg (i : Int) (h : i < 0) :
    get_imdb_string_int i =
      't' :: 't' :: '-' ::
        (List.replicate (7 - ((natDigits i.natAbs).length + 1)) '0' ++
          natDigits i.natAbs) := by
  rw [get_imdb_string_int, pyStrInt, if_pos h, zfill_neg_head]

theorem enc_inj (a b : Int) (h : get_imdb_string_int a = get_imdb_string_int b) :
    a = b := by
  by_cases ha : a < 0 <;> by_cases hb : b < 0
  · rw [get_imdb_string_int_neg a ha, get_imdb_string_int_neg b hb] at h
    simp only [List.cons.injEq, true_and] at h
    have hv := congrArg digitsVal h
    rw [digitsVal_replicate_zero, digitsVal_replicate_zero,
      digitsVal_natDigits, digitsVal_natDigits] at hv
    omega
  · exfalso
    have hb' : b = ((b.toNat : Nat) : Int) := by omega
    have hm : '-' ∈ get_imdb_string_int a := by
      rw [get_imdb_string_int_neg a ha]
      simp
    rw [h, hb'] at hm
    exact neg_not_mem_enc_nat b.toNat hm
  · exfalso
    have ha' : a = ((a.toNat : Nat) : Int) := by omega
    have hm : '-' ∈ get_imdb_string_int b := by
      rw [get_imdb_string_int_neg b hb]
      simp
    rw [← h, ha'] at hm
    exact neg_not_mem_enc_nat a.toNat hm
  · have ha' : a = ((a.toNat : Nat) : Int) := by omega
    have hb' : b = ((b.toNat : Nat) : Int) := by omega
    rw [ha', hb', get_imdb_string_int_nat, get_imdb_string_int_nat] at h
    simp only [List.cons.injEq, true_and] at h
    have hv := congrArg digitsVal h
    rw [digitsVal_replicate_zero, digitsVal_replicate_zero,
      digitsVal_natDigits, digitsVal_natDigits] at hv
    omega

theorem enc_length (k : Int) (h0 : 0 ≤ k) (h7 : k < 10 ^ 7) :
    (get_imdb_string_int k).length = 9 := by
  have hk : k = ((k.toNat : Nat) : Int) := by omega
  rw [hk]
  exact enc_length_nat k.toNat (by omega)

theorem enc_not_sub (j k : Int) (hj0 : 0 ≤ j) (hj7 : j < 10 ^ 7)
    (hk0 : 0 ≤ k) (hk7 : k < 10 ^ 7) (hne : j ≠ k) :
    ∀ t u, t ++ get_imdb_string_int k ++ u ≠ get_imdb_string_int j := by
  intro t u h
  have hlen := congrArg List.length h
  simp only [List.length_append, enc_length j hj0 hj7, enc_length k hk0 hk7] at hlen
  have ht : t = [] := List.eq_nil_of_length_eq_zero (by omega)
  have hu : u = [] := List.eq_nil_of_length_eq_zero (by omega)
  subst ht
  subst hu
  simp only [List.nil_append, List.append_nil] at h
  exact hne (enc_inj k j h).symm

/-! ## Claim C7: Identifier Codec format -/

/-- C7: for every non-negative n with at most 7 decimal digits (equivalently
n < 10^7), get_imdb_string yields the two-letter prefix plus the digits
zero-padded to 7, total length 9; with more than 7 digits the digits are
unpadded and the length exceeds 9; a numeric string yields the same result
as the integer it denotes. -/
theorem c7_codec_format (n : Nat) :
    ((natDigits n).length ≤ 7 ↔ n < 10 ^ 7) ∧
    (n < 10 ^ 7 →
      (get_imdb_string_int (n : Int)).length = 9 ∧
      get_imdb_string_int (n : Int) =
        't' :: 't' :: (List.replicate (7 - (natDigits n).length) '0' ++ natDigits n)) ∧
    (10 ^ 7 ≤ n →
      get_imdb_string_int (n : Int) = 't' :: 't' :: natDigits n ∧
      9 < (get_imdb_string_int (n : Int)).length) ∧
    (∀ (s : List Char) (i : Int), pyIntOfString s = some i →
      get_imdb_string (.str s) = get_imdb_string (.int i)) := by
  refine ⟨⟨?_, ?_⟩, ?_, ?_, ?_⟩
  · intro h
    by_contra hge
    have := natDigits_length_ge 7 n (by omega)
    omega
  · intro h
    exact natDigits_length_le 6 n (by simpa using h)
  · intro h
    exact ⟨enc_length_nat n h, get_imdb_string_int_nat n⟩
  · intro h
    have hlen : 8 ≤ (natDigits n).length := natDigits_length_ge 7 n h
    constructor
    · rw [get_imdb_string_int_nat]
      have h0 : 7 - (natDigits n).length = 0 := by omega
      rw [h0]
      simp
    · rw [get_imdb_string_int_nat]
      simp only [List.length_cons, List.length_append, List.length_replicate]
      omega
  · intro s i h
    simp [get_imdb_string, pyIntCoerce, h]

/-- Witness for C7 at concrete inputs: a one-digit number pads to length 9,
an eight-digit number is left unpadded, and the string form of 5 agrees with
the int form. -/
theorem c7_witness :
    (get_imdb_string_int ((5 : Nat) : Int)).length = 9 ∧
    get_imdb_string_int ((55555555 : Nat) : Int) = 't' :: 't' :: natDigits 55555555 ∧
    get_imdb_string (.str ['5']) = get_imdb_string (.int 5) := by
  refine ⟨((c7_codec_format 5).2.1 (by norm_num)).1,
    ((c7_codec_format 55555555).2.2.1 (by norm_num)).1,
    (c7_codec_format 0).2.2.2 ['5'] 5 ?_⟩
  decide

/-! ## Claim C9: validate_input never raises -/

theorem validate_input_eq (s e : List Char) :
    validate_input (.str s) (.str e) =
      .ok ((pyIntOfString s).getD 0, (pyIntOfString e).getD 9999999) := by
  cases hs : pyIntOfString s <;> cases he : pyIntOfString e <;>
    simp [validate_input, pyIntCoerce, exceptValueError, hs, he, Bind.bind, Except.bind,
      Pure.pure, Except.pure]

/-- C9: for every pair of string inputs, validate_input returns without
raising; an unparsable start is replaced by 0, an unparsable end by the
sentinel 9999999, and parsable inputs come back as their integer values. -/
theorem c9_validate_total (s e : List Char) :
    ∃ a b : Int, validate_input (.str s) (.str e) = .ok (a, b) ∧
      (pyIntOfString s = none → a = 0) ∧
      (∀ i, pyIntOfString s = some i → a = i) ∧
      (pyIntOfString e = none → b = 9999999) ∧
      (∀ i, pyIntOfString e = some i → b = i) := by
  refine ⟨(pyIntOfString s).getD 0, (pyIntOfString e).getD 9999999,
    validate_input_eq s e, ?_, ?_, ?_, ?_⟩
  · intro h; rw [h]; rfl
  · intro i h; rw [h]; rfl
  · intro h; rw [h]; rfl
  · intro i h; rw [h]; rfl

/-- Witness for C9: a non-numeric start falls back to 0, a numeric end is
returned as its value. -/
theorem c9_witness : validate_input (.str ['x']) (.str ['4', '2']) = .ok (0, 42) := by
  obtain ⟨a, b, h1, h2, -, -, h5⟩ := c9_validate_total ['x'] ['4', '2']
  rw [h1, h2 (by decide), h5 42 (by decide)]

/-! ## Claim C10: the codec on negative inputs -/

/-- C10: get_imdb_string is total on negative integers: it returns tt, then
the sign-aware zero-fill of the signed decimal rendering (zfill keeps the
minus sign in front, so -5 gives tt-000005), the result always contains a
minus sign, and it can never collide with the encoding of a non-negative
input; no non-negativity check is performed. -/
theorem c10_negative_total (n : Int) (h : n < 0) :
    get_imdb_string (.int n) = .ok (get_imdb_string_int n) ∧
    get_imdb_string_int n =
      't' :: 't' :: '-' ::
        (List.replicate (7 - ((natDigits n.natAbs).length + 1)) '0' ++
          natDigits n.natAbs) ∧
    '-' ∈ get_imdb_string_int n ∧
    ∀ m : Int, 0 ≤ m → get_imdb_string_int n ≠ get_imdb_string_int m := by
  refine ⟨rfl, get_imdb_string_int_neg n h, ?_, ?_⟩
  · rw [get_imdb_string_int_neg n h]
    simp
  · intro m hm heq
    have hm2 : m = ((m.toNat : Nat) : Int) := by omega
    have hmem : '-' ∈ get_imdb_string_int m := by
      rw [← heq, get_imdb_string_int_neg n h]
      simp
    rw [hm2] at hmem
    exact neg_not_mem_enc_nat m.toNat hmem

/-- Witness for C10 at -5: the encoded form is tt-000005, contains the sign,
and differs from the encoding of 5. -/
theorem c10_witness :
    get_imdb_string (.int (-5)) = .ok (get_imdb_string_int (-5)) ∧
    get_imdb_string_int (-5) = ['t', 't', '-', '0', '0', '0', '0', '0', '5'] ∧
    '-' ∈ get_imdb_string_int (-5) ∧
    get_imdb_string_int (-5) ≠ get_imdb_string_int 5 := by
  have h := c10_negative_total (-5) (by norm_num)
  exact ⟨h.1, by decide, h.2.2.1, h.2.2.2 5 (by norm_num)⟩

/-! ## The Catalog Store and the Ingestion Loop (add_movies)

A dataframe row keeps the columns the core logic reads; a cell is none when
the stored value is NaN (which appending a falsy fetch result produces).
The OMDb collaborator is a function from an identifier string to an optional
record; the observable effects of a run (time.sleep and outbound fetches)
are collected in an event trace. -/

structure Row where
  imdb_id : Option (List Char)
  title : Option (List Char)
  year : Option Nat
  in_rym : Option Bool
  deriving DecidableEq

def emptyRow : Row := ⟨none, none, none, none⟩

inductive Event
  | sleep (secs : Nat)
  | fetchCall (imdbId : List Char)
  deriving DecidableEq

def isSleep : Event → Bool
  | .sleep _ => true
  | .fetchCall _ => false

/-- List l begins with pattern p. -/
def startsWithL : List Char → List Char → Bool
  | _, [] => true
  | [], _ :: _ => false
  | c :: cs, p :: ps => decide (c = p) && startsWithL cs ps

/-- Pattern pat occurs contiguously somewhere in s: the semantics of a
Python regex search (the identifiers the codec produces hold no regex
metacharacters, so str.contains on them is plain substring search). -/
def containsSub (s pat : List Char) : Bool :=
  match s with
  | [] => startsWithL [] pat
  | _ :: cs => startsWithL s pat || containsSub cs pat

/-- The dedup check of add_movies:
dataframe[imdb_id].str.contains(movie_string).any().  str.contains performs
a regex search within each cell; a NaN cell yields NaN, which Series.any()
skips. -/
def containsCheck (df : List Row) (pat : List Char) : Bool :=
  df.any (fun r =>
    match r.imdb_id with
    | some s => containsSub s pat
    | none => false)

/-- add_individual_movie: fetch the record and append the result to the
dataframe; a falsy result ({} from a miss) appends an all-NaN row.  There is
no branch on the fetch outcome. -/
def add_individual_movie (movie : List Char) (df : List Row)
    (fetch : List Char → Option Row) : List Row :=
  match fetch movie with
  | some movieData => df ++ [movieData]
  | none => df ++ [emptyRow]

/-- The sleep_amount local of add_movies: 90 when end - start > 1000, else
0. -/
def sleep_amount (s endv : Int) : Nat :=
  if endv - s > 1000 then 90 else 0

/-- The while loop of add_movies.  The fuel argument is the number of
iterations left, (endv + 1 - start).toNat at entry; it decreases by one as
start increases by one, exactly mirroring the loop counter (see
add_movies_go_fuel: any fuel at least the remaining span gives the same
result).  Each iteration sleeps, encodes the identifier, skips when the
containment check holds, and otherwise fetches and appends. -/
def add_movies_go (fetch : List Char → Option Row) (sa : Nat) :
    Nat → Int → Int → List Row → List Row × List Event
  | 0, _, _, df => (df, [])
  | fuel + 1, start, endv, df =>
    if start ≤ endv then
      if containsCheck df (get_imdb_string_int start) then
        ((add_movies_go fetch sa fuel (start + 1) endv df).1,
          Event.sleep sa :: (add_movies_go fetch sa fuel (start + 1) endv df).2)
      else
        ((add_movies_go fetch sa fuel (start + 1) endv
            (add_individual_movie (get_imdb_string_int start) df fetch)).1,
          Event.sleep sa :: Event.fetchCall (get_imdb_string_int start) ::
            (add_movies_go fetch sa fuel (start + 1) endv
              (add_individual_movie (get_imdb_string_int start) df fetch)).2)
    else (df, [])

def add_movies_loop (fetch : List Char → Option Row) (sa : Nat)
    (s endv : Int) (df : List Row) : List Row × List Event :=
  add_movies_go fetch sa (endv + 1 - s).toNat s endv df

/-- add_movies(api_key, start, end): validate the bounds, load the store
(df0, the storage collaborator's content), choose the sleep amount, and run
the sweep.  The api_key only parameterizes the fetch collaborator. -/
def add_movies (fetch : List Char → Option Row) (df0 : List Row)
    (start endv : PyScalar) : Except PyErr (List Row × List Event) := do
  let b ← validate_input start endv
  pure (add_movies_loop fetch (sleep_amount b.1 b.2) b.1 b.2 df0)

/-! ## Substring-search characterization -/

theorem startsWithL_iff (p : List Char) : ∀ s : List Char,
    startsWithL s p = true ↔ ∃ u, p ++ u = s := by
  induction p with
  | nil =>
    intro s
    simp [startsWithL]
  | cons c cs ih =>
    intro s
    cases s with
    | nil =>
      simp [startsWithL]
    | cons d ds =>
      simp only [startsWithL, Bool.and_eq_true, decide_eq_true_eq, ih ds]
      constructor
      · rintro ⟨rfl, u, rfl⟩
        exact ⟨u, rfl⟩
      · rintro ⟨u, h⟩
        simp only [List.cons_append, List.cons.injEq] at h
        exact ⟨h.1.symm, u, h.2⟩

theorem containsSub_iff (p : List Char) : ∀ s : List Char,
    containsSub s p = true ↔ ∃ t u, t ++ p ++ u = s := by
  intro s
  induction s with
  | nil =>
    simp only [containsSub, startsWithL_iff]
    constructor
    · rintro ⟨u, h⟩
      exact ⟨[], u, by simpa using h⟩
    · rintro ⟨t, u, h⟩
      have := congrArg List.length h
      simp only [List.length_append, List.length_nil] at this
      refine ⟨u, ?_⟩
      have ht : t = [] := List.eq_nil_of_length_eq_zero (by omega)
      subst ht
      simpa using h
  | cons d ds ih =>
    simp only [containsSub, Bool.or_eq_true, startsWithL_iff, ih]
    constructor
    · rintro (⟨u, h⟩ | ⟨t, u, h⟩)
      · exact ⟨[], u, by simpa using h⟩
      · exact ⟨d :: t, u, by simpa using h⟩
    · rintro ⟨t, u, h⟩
      cases t with
      | nil =>
        exact Or.inl ⟨u, by simpa using h⟩
      | cons x xs =>
        simp only [List.cons_append, List.cons.injEq] at h
        exact Or.inr ⟨xs, u, h.2⟩

/-! ## Claim C4: the dedup containment check -/

/-- The store and identifier refuting C4: the stored cell tt00000012
strictly contains the 9-character identifier tt0000001 as a substring
without being equal to it. -/
def dfC4 : List Row :=
  [⟨some ['t', 't', '0', '0', '0', '0', '0', '0', '1', '2'], none, none, none⟩]

/-- C4 counterexample: the containment check accepts identifier tt0000001
against store dfC4 although no cell is exactly equal to it, so the check is
not exact string matching. -/
theorem c4_counterexample :
    containsCheck dfC4 (get_imdb_string_int 1) = true ∧
    dfC4.all (fun r => decide (r.imdb_id ≠ some (get_imdb_string_int 1))) = true := by
  decide

/-- C4 amended: the containment check used by the Ingestion Loop returns
true iff some record has a non-NaN imdb_id cell that contains the
identifier as a contiguous substring (the regex search of str.contains;
identifiers hold no metacharacters), not iff some cell equals it. -/
theorem c4_amended (df : List Row) (pat : List Char) :
    containsCheck df pat = true ↔
      ∃ r ∈ df, ∃ s, r.imdb_id = some s ∧ ∃ t u, t ++ pat ++ u = s := by
  simp only [containsCheck, List.any_eq_true]
  constructor
  · rintro ⟨r, hr, hmatch⟩
    cases hid : r.imdb_id with
    | none => rw [hid] at hmatch; exact absurd hmatch (by simp)
    | some s =>
      rw [hid] at hmatch
      exact ⟨r, hr, s, hid, (containsSub_iff pat s).mp hmatch⟩
  · rintro ⟨r, hr, s, hid, hsub⟩
    refine ⟨r, hr, ?_⟩
    rw [hid]
    exact (containsSub_iff pat s).mpr hsub

/-- Witness for C4 amended: the substring characterization applied at the
concrete store dfC4. -/
theorem c4_witness : containsCheck dfC4 (get_imdb_string_int 1) = true := by
  refine (c4_amended dfC4 (get_imdb_string_int 1)).mpr
    ⟨dfC4.head (by decide), by decide, ['t', 't', '0', '0', '0', '0', '0', '0', '1', '2'],
      by decide, [], ['2'], by decide⟩

/-! ## Structural lemmas about the sweep loop -/

theorem containsSub_self (l : List Char) : containsSub l l = true :=
  (containsSub_iff l l).mpr ⟨[], [], by simp⟩

theorem containsCheck_append (df rows : List Row) (pat : List Char) :
    containsCheck (df ++ rows) pat =
      (containsCheck df pat || containsCheck rows pat) := by
  simp [containsCheck, List.any_append]

theorem add_individual_movie_eq (movie : List Char) (df : List Row)
    (fetch : List Char → Option Row) :
    add_individual_movie movie df fetch = df ++ [(fetch movie).getD emptyRow] := by
  cases h : fetch movie <;> simp [add_individual_movie, h]

theorem go_df_append (fetch : List Char → Option Row) (sa : Nat) :
    ∀ (fuel : Nat) (s endv : Int) (df : List Row),
      ∃ rows, (add_movies_go fetch sa fuel s endv df).1 = df ++ rows := by
  intro fuel
  induction fuel with
  | zero =>
    intro s endv df
    exact ⟨[], by simp [add_movies_go]⟩
  | succ fuel ih =>
    intro s endv df
    by_cases hse : s ≤ endv
    · by_cases hc : containsCheck df (get_imdb_string_int s) = true
      · obtain ⟨rows, h⟩ := ih (s + 1) endv df
        exact ⟨rows, by simp only [add_movies_go, if_pos hse, if_pos hc]; exact h⟩
      · obtain ⟨rows, h⟩ := ih (s + 1) endv
          (add_individual_movie (get_imdb_string_int s) df fetch)
        refine ⟨(fetch (get_imdb_string_int s)).getD emptyRow :: rows, ?_⟩
        simp only [add_movies_go, if_pos hse, if_neg hc]
        rw [h, add_individual_movie_eq]
        simp
    · exact ⟨[], by simp [add_movies_go, if_neg hse]⟩

theorem go_no_fetch_of_contains (fetch : List Char → Option Row) (sa : Nat) :
    ∀ (fuel : Nat) (s endv : Int) (df : List Row) (pat : List Char),
      containsCheck df pat = true →
      Event.fetchCall pat ∉ (add_movies_go fetch sa fuel s endv df).2 := by
  intro fuel
  induction fuel with
  | zero =>
    intro s endv df pat _
    simp [add_movies_go]
  | succ fuel ih =>
    intro s endv df pat h
    by_cases hse : s ≤ endv
    · by_cases hc : containsCheck df (get_imdb_string_int s) = true
      · simp only [add_movies_go, if_pos hse, if_pos hc, List.mem_cons]
        rintro (heq | hmem)
        · exact absurd heq (by simp)
        · exact ih (s + 1) endv df pat h hmem
      · have hne : pat ≠ get_imdb_string_int s := by
          intro heq
          rw [heq] at h
          exact hc h
        simp only [add_movies_go, if_pos hse, if_neg hc, List.mem_cons]
        rintro (heq | heq | hmem)
        · exact absurd heq (by simp)
        · injection heq with h2
          exact hne h2
        · refine ih (s + 1) endv _ pat ?_ hmem
          rw [add_individual_movie_eq, containsCheck_append, h]
          simp
    · simp [add_movies_go, if_neg hse]

theorem go_sleep_values (fetch : List Char → Option Row) (sa : Nat) :
    ∀ (fuel : Nat) (s endv : Int) (df : List Row) (d : Nat),
      Event.sleep d ∈ (add_movies_go fetch sa fuel s endv df).2 → d = sa := by
  intro fuel
  induction fuel with
  | zero =>
    intro s endv df d h
    simp [add_movies_go] at h
  | succ fuel ih =>
    intro s endv df d h
    by_cases hse : s ≤ endv
    · by_cases hc : containsCheck df (get_imdb_string_int s) = true
      · simp only [add_movies_go, if_pos hse, if_pos hc, List.mem_cons] at h
        rcases h with heq | hmem
        · injection heq
        · exact ih (s + 1) endv df d hmem
      · simp only [add_movies_go, if_pos hse, if_neg hc, List.mem_cons] at h
        rcases h with heq | heq | hmem
        · injection heq
        · exact absurd heq (by simp)
        · exact ih (s + 1) endv _ d hmem
    · simp [add_movies_go, if_neg hse] at h

theorem go_sleep_count (fetch : List Char → Option Row) (sa : Nat) :
    ∀ (fuel : Nat) (s endv : Int) (df : List Row),
      (endv + 1 - s).toNat ≤ fuel →
      (add_movies_go fetch sa fuel s endv df).2.countP isSleep =
        (endv + 1 - s).toNat := by
  intro fuel
  induction fuel with
  | zero =>
    intro s endv df h
    simp only [add_movies_go, List.countP_nil]
    omega
  | succ fuel ih =>
    intro s endv df h
    by_cases hse : s ≤ endv
    · have hspan : (endv + 1 - (s + 1)).toNat ≤ fuel := by omega
      by_cases hc : containsCheck df (get_imdb_string_int s) = true
      · simp only [add_movies_go, if_pos hse, if_pos hc, List.countP_cons, isSleep,
          if_true, ih (s + 1) endv df hspan]
        omega
      · simp only [add_movies_go, if_pos hse, if_neg hc, List.countP_cons, isSleep,
          ih (s + 1) endv _ hspan]
        norm_num
        omega
    · simp only [add_movies_go, if_neg hse, List.countP_nil]
      omega

theorem go_all_contained (fetch : List Char → Option Row) (sa : Nat) :
    ∀ (fuel : Nat) (s endv : Int) (df : List Row),
      (∀ k : Int, s ≤ k → k ≤ endv →
        containsCheck df (get_imdb_string_int k) = true) →
      (add_movies_go fetch sa fuel s endv df).1 = df ∧
      ∀ id, Event.fetchCall id ∉ (add_movies_go fetch sa fuel s endv df).2 := by
  intro fuel
  induction fuel with
  | zero =>
    intro s endv df _
    exact ⟨rfl, by simp [add_movies_go]⟩
  | succ fuel ih =>
    intro s endv df h
    by_cases hse : s ≤ endv
    · have hc : containsCheck df (get_imdb_string_int s) = true := h s le_rfl hse
      have hrest := ih (s + 1) endv df (fun k h1 h2 => h k (by omega) h2)
      constructor
      · simp only [add_movies_go, if_pos hse, if_pos hc]
        exact hrest.1
      · intro id
        simp only [add_movies_go, if_pos hse, if_pos hc, List.mem_cons]
        rintro (heq | hmem)
        · exact absurd heq (by simp)
        · exact hrest.2 id hmem
    · exact ⟨by simp [add_movies_go, if_neg hse], by simp [add_movies_go, if_neg hse]⟩

theorem go_populates (fetch : List Char → Option Row) (sa : Nat)
    (hfetch : ∀ id r, fetch id = some r → r.imdb_id = some id) :
    ∀ (fuel : Nat) (s endv : Int) (df : List Row),
      (endv + 1 - s).toNat ≤ fuel →
      (∀ k : Int, s ≤ k → k ≤ endv →
        (fetch (get_imdb_string_int k)).isSome = true) →
      ∀ k : Int, s ≤ k → k ≤ endv →
        containsCheck (add_movies_go fetch sa fuel s endv df).1
          (get_imdb_string_int k) = true := by
  intro fuel
  induction fuel with
  | zero =>
    intro s endv df hful _ k hk1 hk2
    omega
  | succ fuel ih =>
    intro s endv df hful hsome k hk1 hk2
    have hse : s ≤ endv := le_trans hk1 hk2
    have hspan : (endv + 1 - (s + 1)).toNat ≤ fuel := by omega
    have hsome' : ∀ j : Int, s + 1 ≤ j → j ≤ endv →
        (fetch (get_imdb_string_int j)).isSome = true :=
      fun j h1 h2 => hsome j (by omega) h2
    by_cases hc : containsCheck df (get_imdb_string_int s) = true
    · simp only [add_movies_go, if_pos hse, if_pos hc]
      rcases eq_or_lt_of_le hk1 with rfl | hlt
      · obtain ⟨rows, hrows⟩ := go_df_append fetch sa fuel (s + 1) endv df
        rw [hrows, containsCheck_append, hc]
        simp
      · exact ih (s + 1) endv df hspan hsome' k (by omega) hk2
    · simp only [add_movies_go, if_pos hse, if_neg hc]
      obtain ⟨r, hr⟩ := Option.isSome_iff_exists.mp (hsome s le_rfl hse)
      have hid := hfetch _ r hr
      have hdf2 : add_individual_movie (get_imdb_string_int s) df fetch =
          df ++ [r] := by
        simp [add_individual_movie, hr]
      rcases eq_or_lt_of_le hk1 with rfl | hlt
      · obtain ⟨rows, hrows⟩ := go_df_append fetch sa fuel (s + 1) endv
          (add_individual_movie (get_imdb_string_int s) df fetch)
        rw [hrows, hdf2, containsCheck_append, containsCheck_append]
        have hone : containsCheck [r] (get_imdb_string_int s) = true := by
          simp [containsCheck, hid, containsSub_self]
        rw [hone]
        simp
      · exact ih (s + 1) endv _ hspan hsome' k (by omega) hk2

/-! ## Claim C5: skipped identifiers and the delay -/

/-- A fetch collaborator that always answers with a record carrying the
queried identifier. -/
def fetchW : List Char → Option Row := fun id => some ⟨some id, none, none, none⟩

/-- A store already containing the encoding of 0. -/
def dfC5 : List Row := [⟨some (get_imdb_string_int 0), none, none, none⟩]

/-- C5 counterexample: over the sweep [0, 1002] (span 1003, so the 90-second
delay mode) against a store already containing the identifier of 0, the
number 0 is skipped, yet the very first event of the run is a 90-second
sleep, before any external call: the pause is not restricted to unskipped
numbers nor placed only between external calls. -/
theorem c5_counterexample :
    containsCheck dfC5 (get_imdb_string_int 0) = true ∧
    sleep_amount 0 1002 = 90 ∧
    Except.map (fun p => p.2.head?) (add_movies fetchW dfC5 (.int 0) (.int 1002)) =
      .ok (some (Event.sleep 90)) := by
  exact ⟨by decide, by decide, rfl⟩

/-- C5 amended: a skipped identifier (one whose containment check already
holds against the starting store) is never fetched, but the loop sleeps the
fixed amount once per number of the range whether or not the number is
skipped: the trace has exactly span-many sleep events, each of the
configured amount. -/
theorem c5_amended (fetch : List Char → Option Row) (sa : Nat) (s endv : Int)
    (df : List Row) :
    (∀ k : Int, containsCheck df (get_imdb_string_int k) = true →
      Event.fetchCall (get_imdb_string_int k) ∉
        (add_movies_loop fetch sa s endv df).2) ∧
    (add_movies_loop fetch sa s endv df).2.countP isSleep = (endv + 1 - s).toNat ∧
    (∀ d : Nat, Event.sleep d ∈ (add_movies_loop fetch sa s endv df).2 → d = sa) := by
  refine ⟨?_, ?_, ?_⟩
  · intro k h
    exact go_no_fetch_of_contains fetch sa _ s endv df _ h
  · exact go_sleep_count fetch sa _ s endv df le_rfl
  · intro d h
    exact go_sleep_values fetch sa _ s endv df d h

/-- Witness for C5 amended on the concrete run over [0, 1002] with
identifier 0 pre-existing: that identifier is never fetched and the trace
holds 1003 sleep events. -/
theorem c5_witness :
    Event.fetchCall (get_imdb_string_int 0) ∉
      (add_movies_loop fetchW 90 0 1002 dfC5).2 ∧
    (add_movies_loop fetchW 90 0 1002 dfC5).2.countP isSleep = 1003 := by
  have h := c5_amended fetchW 90 0 1002 dfC5
  refine ⟨h.1 0 (by decide), ?_⟩
  rw [h.2.1]
  decide

/-! ## Claim C6: the rate-limit threshold -/

/-- C6 counterexample: the sweep [0, 1000] spans 1001 identifiers, which
exceeds 1000, yet the chosen delay is 0 (the code tests end - start > 1000,
an off-by-one against the claim's span > 1000): the first event of the run
is a zero sleep. -/
theorem c6_counterexample :
    ((1000 : Int) - 0 + 1 > 1000) ∧
    sleep_amount 0 1000 = 0 ∧
    Except.map (fun p => p.2.head?) (add_movies fetchW [] (.int 0) (.int 1000)) =
      .ok (some (Event.sleep 0)) := by
  exact ⟨by norm_num, by decide, rfl⟩

/-- C6 amended: the fixed delay is 0 exactly when end - start ≤ 1000, i.e.
when the inclusive span is at most 1001 identifiers, and 90 when
end - start > 1000 (span at least 1002); every sleep of a run sleeps that
amount. -/
theorem c6_amended (s endv : Int) :
    (endv - s + 1 ≤ 1001 → sleep_amount s endv = 0) ∧
    (1001 < endv - s + 1 → sleep_amount s endv = 90) ∧
    ∀ (fetch : List Char → Option Row) (df : List Row) (d : Nat),
      Event.sleep d ∈ (add_movies_loop fetch (sleep_amount s endv) s endv df).2 →
      d = sleep_amount s endv := by
  refine ⟨?_, ?_, ?_⟩
  · intro h
    rw [sleep_amount, if_neg (by omega)]
  · intro h
    rw [sleep_amount, if_pos (by omega)]
  · intro fetch df d h
    exact go_sleep_values fetch _ _ s endv df d h

/-- Witness for C6 amended: a span of 2001 gets the 90-second delay, a span
of 1001 gets none. -/
theorem c6_witness : sleep_amount 0 2000 = 90 ∧ sleep_amount 0 1000 = 0 :=
  ⟨(c6_amended 0 2000).2.1 (by norm_num), (c6_amended 0 1000).1 (by norm_num)⟩

/-! ## Claim C8: idempotence of the sweep -/

/-- C8: when the fetch collaborator returns, for every identifier of the
range, a record carrying that identifier, a second run of the sweep over the
store produced by the first run performs no external fetch call at all. -/
theorem c8_idempotence (fetch : List Char → Option Row) (df0 : List Row)
    (s endv : Int) (sa : Nat)
    (hfetch : ∀ id r, fetch id = some r → r.imdb_id = some id)
    (hsome : ∀ k : Int, s ≤ k → k ≤ endv →
      (fetch (get_imdb_string_int k)).isSome = true) :
    ∀ id, Event.fetchCall id ∉
      (add_movies_loop fetch sa s endv
        (add_movies_loop fetch sa s endv df0).1).2 := by
  intro id
  have hpop : ∀ k : Int, s ≤ k → k ≤ endv →
      containsCheck (add_movies_loop fetch sa s endv df0).1
        (get_imdb_string_int k) = true :=
    fun k h1 h2 => go_populates fetch sa hfetch _ s endv df0 le_rfl hsome k h1 h2
  exact (go_all_contained fetch sa _ s endv _ hpop).2 id

/-- Witness for C8: a second sweep over [0, 2] against the store the first
sweep filled makes no fetch call for identifier 1 (nor any other). -/
theorem c8_witness :
    Event.fetchCall (get_imdb_string_int 1) ∉
      (add_movies_loop fetchW 0 0 2 (add_movies_loop fetchW 0 0 2 []).1).2 := by
  refine c8_idempotence fetchW [] 0 2 0 ?_ ?_ (get_imdb_string_int 1)
  · intro id r h
    cases h
    rfl
  · intro k _ _
    rfl

/-! ## Claim C1: no stop-on-miss in the sweep -/

/-- Ascending list of n consecutive integers starting at s, used to state
which identifiers the sweep visits. -/
def intRangeList : Nat → Int → List Int
  | 0, _ => []
  | n + 1, s => s :: intRangeList n (s + 1)

/-- The event trace of a full sweep over the given numbers: one sleep and
one fetch per number. -/
def sweepTrace (sa : Nat) : List Int → List Event
  | [] => []
  | k :: ks =>
    Event.sleep sa :: Event.fetchCall (get_imdb_string_int k) :: sweepTrace sa ks

/-- A threshold-1 fetch collaborator: identifier 0 is found, every other
identifier is a miss. -/
def fetchC1 : List Char → Option Row := fun id =>
  if id = get_imdb_string_int 0 then some ⟨some id, none, none, none⟩ else none

/-- C1 counterexample: with the threshold-1 collaborator over the sweep
[0, 2], the claim predicts no fetch for identifiers after the miss at 1 and
a final store of exactly the one record for 0; the loop in fact fetches
identifier 2 as well, and the store ends with 3 rows (the record for 0 plus
two all-NaN rows appended for the two misses). -/
theorem c1_counterexample :
    fetchC1 (get_imdb_string_int 1) = none ∧
    Except.map
        (fun p => (decide (Event.fetchCall (get_imdb_string_int 2) ∈ p.2), p.1.length))
        (add_movies fetchC1 [] (.int 0) (.int 2)) =
      .ok (true, 3) := by
  exact ⟨by decide, rfl⟩

/-- The loop never stops early: under a collaborator that returns a record
carrying identifier k for k < T and a miss at and after T, and a store
containing none of the swept identifiers, the sweep visits, sleeps for and
fetches every number of [s, endv] in ascending order, appending the record
below T and an all-NaN row at or above it. -/
theorem go_noStop (fetch : List Char → Option Row) (sa : Nat) (endv T : Int)
    (rec : Int → Row) (hend : endv < 10 ^ 7)
    (hlow : ∀ k : Int, 0 ≤ k → k ≤ endv → k < T →
      fetch (get_imdb_string_int k) = some (rec k) ∧
        (rec k).imdb_id = some (get_imdb_string_int k))
    (hhigh : ∀ k : Int, 0 ≤ k → k ≤ endv → T ≤ k →
      fetch (get_imdb_string_int k) = none) :
    ∀ (fuel : Nat) (s : Int) (df : List Row), 0 ≤ s →
      (endv + 1 - s).toNat ≤ fuel →
      (∀ k : Int, s ≤ k → k ≤ endv →
        containsCheck df (get_imdb_string_int k) = false) →
      add_movies_go fetch sa fuel s endv df =
        (df ++ (intRangeList (endv + 1 - s).toNat s).map
            (fun k => if k < T then rec k else emptyRow),
          sweepTrace sa (intRangeList (endv + 1 - s).toNat s)) := by
  intro fuel
  induction fuel with
  | zero =>
    intro s df hs0 hful hdf
    have h0 : (endv + 1 - s).toNat = 0 := by omega
    rw [h0]
    simp [add_movies_go, intRangeList, sweepTrace]
  | succ fuel ih =>
    intro s df hs0 hful hdf
    by_cases hse : s ≤ endv
    · have hc : containsCheck df (get_imdb_string_int s) = false := hdf s le_rfl hse
      have hcc : ¬ (containsCheck df (get_imdb_string_int s) = true) := by simp [hc]
      have hadd : add_individual_movie (get_imdb_string_int s) df fetch =
          df ++ [if s < T then rec s else emptyRow] := by
        by_cases hT : s < T
        · rw [if_pos hT]
          simp [add_individual_movie, (hlow s hs0 hse hT).1]
        · rw [if_neg hT]
          simp [add_individual_movie, hhigh s hs0 hse (by omega)]
      have hdf' : ∀ k : Int, s + 1 ≤ k → k ≤ endv →
          containsCheck (df ++ [if s < T then rec s else emptyRow])
            (get_imdb_string_int k) = false := by
        intro k h1 h2
        rw [containsCheck_append, hdf k (by omega) h2]
        simp only [Bool.false_or]
        by_cases hT : s < T
        · rw [if_pos hT]
          have hid := (hlow s hs0 hse hT).2
          simp only [containsCheck, List.any_cons, List.any_nil, hid, Bool.or_false]
          by_contra hsub
          simp only [Bool.not_eq_false] at hsub
          obtain ⟨t, u, htu⟩ := (containsSub_iff _ _).mp hsub
          exact enc_not_sub s k hs0 (by omega) (by omega) (by omega) (by omega) t u htu
        · rw [if_neg hT]
          simp [containsCheck, emptyRow]
      have hspan : (endv + 1 - s).toNat = (endv + 1 - (s + 1)).toNat + 1 := by omega
      have hIH := ih (s + 1) (df ++ [if s < T then rec s else emptyRow])
        (by omega) (by omega) hdf'
      rw [hspan]
      simp only [add_movies_go, if_pos hse, if_neg hcc, hadd, hIH, intRangeList,
        sweepTrace, List.map_cons, Prod.mk.injEq]
      constructor
      · rw [List.append_assoc]
        rfl
      · trivial
    · have h0 : (endv + 1 - s).toNat = 0 := by omega
      rw [h0]
      simp [add_movies_go, if_neg hse, intRangeList, sweepTrace]

/-- C1 amended: a falsy fetch result does not end the sweep.  Under the
claim's threshold collaborator the loop raises no error, but instead of
stopping at the first miss it continues through the whole validated range:
it fetches every identifier of [start, end] (none pre-existing), appends the
fetched record for identifiers below the threshold and an all-NaN row for
each identifier at or above it, and sleeps once per number. -/
theorem c1_amended (fetch : List Char → Option Row) (df0 : List Row)
    (s endv T : Int) (rec : Int → Row)
    (hs0 : 0 ≤ s) (hend : endv < 10 ^ 7)
    (hdf0 : ∀ k : Int, s ≤ k → k ≤ endv →
      containsCheck df0 (get_imdb_string_int k) = false)
    (hlow : ∀ k : Int, 0 ≤ k → k ≤ endv → k < T →
      fetch (get_imdb_string_int k) = some (rec k) ∧
        (rec k).imdb_id = some (get_imdb_string_int k))
    (hhigh : ∀ k : Int, 0 ≤ k → k ≤ endv → T ≤ k →
      fetch (get_imdb_string_int k) = none) :
    add_movies fetch df0 (.int s) (.int endv) =
      .ok (df0 ++ (intRangeList (endv + 1 - s).toNat s).map
          (fun k => if k < T then rec k else emptyRow),
        sweepTrace (sleep_amount s endv) (intRangeList (endv + 1 - s).toNat s)) := by
  have hrun : add_movies fetch df0 (.int s) (.int endv) =
      .ok (add_movies_loop fetch (sleep_amount s endv) s endv df0) := rfl
  rw [hrun, add_movies_loop,
    go_noStop fetch (sleep_amount s endv) endv T rec hend hlow hhigh
      ((endv + 1 - s).toNat) s df0 hs0 le_rfl hdf0]

/-- Witness for C1 amended: over [0, 2] with the threshold-1 collaborator
the run returns the record for 0 plus two all-NaN rows and a trace that
sleeps and fetches for every one of the three identifiers. -/
theorem c1_witness :
    add_movies fetchC1 [] (.int 0) (.int 2) =
      .ok ([⟨some (get_imdb_string_int 0), none, none, none⟩, emptyRow, emptyRow],
        [Event.sleep 0, Event.fetchCall (get_imdb_string_int 0),
          Event.sleep 0, Event.fetchCall (get_imdb_string_int 1),
          Event.sleep 0, Event.fetchCall (get_imdb_string_int 2)]) := by
  have h := c1_amended fetchC1 [] 0 2 1
    (fun k => ⟨some (get_imdb_string_int k), none, none, none⟩)
    (by norm_num) (by norm_num)
    (fun k _ _ => rfl)
    (by
      intro k h1 h2 h3
      have hk : k = 0 := by omega
      subst hk
      exact ⟨by decide, rfl⟩)
    (by
      intro k h1 h2 h3
      have hk : k = 1 ∨ k = 2 := by omega
      rcases hk with rfl | rfl
      · decide
      · decide)
  rw [h]
  rfl

/-! ## The fuzzy matcher (get_similarity_ratio / check_rym)

difflib.SequenceMatcher with no junk: find the longest matching block
(earliest in a, then in b, among maximal ones), recurse on both sides, and
let ratio = 2 * M / (len a + len b) over the total matched M.  The Python
float comparison ratio > 0.6 is modelled as the exact rational comparison
with 3/5, which agrees for all realistic lengths (the quantities differ by
at least 1/(5 * T) when distinct, far above double rounding error); the
autojunk heuristic, which only activates on strings of 200 or more
characters, is not modelled. -/

/-- Length of the common prefix run of two lists. -/
def commonRun : List Char → List Char → Nat
  | a :: as, b :: bs => if a = b then commonRun as bs + 1 else 0
  | _, _ => 0

/-- (i, j, k): the longest block with a[i:i+k] = b[j:j+k]; among maximal
blocks the one starting earliest in a, then earliest in b, as
find_longest_match documents. -/
def bestMatch (a b : List Char) : Nat × Nat × Nat :=
  (List.range a.length).foldl (fun best i =>
    (List.range b.length).foldl (fun best2 j =>
      if best2.2.2 < commonRun (a.drop i) (b.drop j) then
        (i, j, commonRun (a.drop i) (b.drop j))
      else best2) best) (0, 0, 0)

/-- Total size of all matching blocks (get_matching_blocks), fuelled by the
recursion depth; a.length + b.length always suffices (matchTotalF_stable
shows any sufficient fuel gives the same value). -/
def matchTotalF : Nat → List Char → List Char → Nat
  | 0, _, _ => 0
  | fuel + 1, a, b =>
    if (bestMatch a b).2.2 = 0 then 0
    else
      matchTotalF fuel (a.take (bestMatch a b).1) (b.take (bestMatch a b).2.1) +
        (bestMatch a b).2.2 +
        matchTotalF fuel (a.drop ((bestMatch a b).1 + (bestMatch a b).2.2))
          (b.drop ((bestMatch a b).2.1 + (bestMatch a b).2.2))

def matchTotal (a b : List Char) : Nat :=
  matchTotalF (a.length + b.length) a b

/-- SequenceMatcher(None, a, b).ratio(): the exact rational 2 M / T, and
1.0 for two empty strings (difflib's _calculate_ratio). -/
def similarity_ratio (a b : List Char) : Rat :=
  if a.length + b.length = 0 then 1
  else Rat.divInt (2 * (matchTotal a b : Int)) ((a.length + b.length : Nat) : Int)

/-- The fixed threshold of get_similarity_ratio, the exact value 0.6 =
3/5. -/
def minimum_similarity_score : Rat := Rat.divInt 3 5

/-! ## Fuel adequacy for the block recursion -/

theorem foldl_invariant_mem {α β : Type} (P : β → Prop) (f : β → α → β) :
    ∀ (l : List α) (init : β), P init →
      (∀ acc x, x ∈ l → P acc → P (f acc x)) → P (l.foldl f init) := by
  intro l
  induction l with
  | nil => intro init h _; exact h
  | cons x xs ih =>
    intro init h hstep
    exact ih (f init x) (hstep init x (List.mem_cons_self x xs) h)
      (fun acc y hy hacc => hstep acc y (List.mem_cons_of_mem x hy) hacc)

theorem bestMatch_bounds (a b : List Char) : (bestMatch a b).2.2 ≠ 0 →
    (bestMatch a b).1 < a.length ∧ (bestMatch a b).2.1 < b.length := by
  have h := foldl_invariant_mem
    (fun best : Nat × Nat × Nat => best.2.2 ≠ 0 → best.1 < a.length ∧ best.2.1 < b.length)
    (fun best i =>
      (List.range b.length).foldl (fun best2 j =>
        if best2.2.2 < commonRun (a.drop i) (b.drop j) then
          (i, j, commonRun (a.drop i) (b.drop j))
        else best2) best)
    (List.range a.length) (0, 0, 0) (by simp)
    (by
      intro acc i hi hacc
      have hia : i < a.length := List.mem_range.mp hi
      refine foldl_invariant_mem
        (fun best2 : Nat × Nat × Nat =>
          best2.2.2 ≠ 0 → best2.1 < a.length ∧ best2.2.1 < b.length)
        _ (List.range b.length) acc hacc ?_
      intro acc2 j hj hacc2
      have hjb : j < b.length := List.mem_range.mp hj
      by_cases hlt : acc2.2.2 < commonRun (a.drop i) (b.drop j)
      · rw [if_pos hlt]
        intro _
        exact ⟨hia, hjb⟩
      · rw [if_neg hlt]
        exact hacc2)
  exact h

theorem matchTotalF_stable : ∀ (f1 : Nat) (a b : List Char) (f2 : Nat),
    a.length + b.length ≤ f1 → a.length + b.length ≤ f2 →
    matchTotalF f1 a b = matchTotalF f2 a b := by
  intro f1
  induction f1 with
  | zero =>
    intro a b f2 h1 _
    have ha : a = [] := List.eq_nil_of_length_eq_zero (by omega)
    have hb : b = [] := List.eq_nil_of_length_eq_zero (by omega)
    subst ha
    subst hb
    cases f2 with
    | zero => rfl
    | succ g => simp [matchTotalF, bestMatch]
  | succ f1 ih =>
    intro a b f2 h1 h2
    cases f2 with
    | zero =>
      have ha : a = [] := List.eq_nil_of_length_eq_zero (by omega)
      have hb : b = [] := List.eq_nil_of_length_eq_zero (by omega)
      subst ha
      subst hb
      simp [matchTotalF, bestMatch]
    | succ g =>
      by_cases hk : (bestMatch a b).2.2 = 0
      · simp [matchTotalF, hk]
      · obtain ⟨hia, hjb⟩ := bestMatch_bounds a b hk
        have hk1 : 1 ≤ (bestMatch a b).2.2 := by omega
        simp only [matchTotalF, if_neg hk]
        rw [ih (a.take (bestMatch a b).1) (b.take (bestMatch a b).2.1) g
            (by simp [List.length_take]; omega) (by simp [List.length_take]; omega),
          ih (a.drop ((bestMatch a b).1 + (bestMatch a b).2.2))
            (b.drop ((bestMatch a b).2.1 + (bestMatch a b).2.2)) g
            (by simp [List.length_drop]; omega) (by simp [List.length_drop]; omega)]

/-! ## The parsed search fragment and check_rym -/

/-- One span node of the parsed fragment: the strings of its text nodes
(searched by link.find against the year regex) and, when the chain
find_previous_sibling('span').find('a').get_text() succeeds, that preceding
title text (none models the AttributeError path, suppressed by the
caller). -/
structure Span where
  texts : List (List Char)
  prevTitle : Option (List Char)
  deriving DecidableEq

/-- link.find(text=re.compile('(year)')): the parentheses are a regex
group, so the search matches any text node containing the year's decimal
digits as a substring. -/
def yearFilter (year : Nat) (sp : Span) : Bool :=
  sp.texts.any (fun t => containsSub t (natDigits year))

/-- get_similarity_ratio(title, link): read the preceding sibling's anchor
text (AttributeError when the chain hits None), compare with
SequenceMatcher(None, link_text, title).ratio() > 0.6. -/
def get_similarity_ratio (title : List Char) (link : Span) : Except PyErr Bool :=
  match link.prevTitle with
  | none => .error .attributeError
  | some linkText =>
    .ok (decide (minimum_similarity_score < similarity_ratio linkText title))

/-- check_rym(soup, title, year): for each span whose text matches the year
pattern, evaluate the similarity verdict under suppress(AttributeError);
return True at the first success, False when the spans are exhausted. -/
def check_rym (soup : List Span) (title : List Char) (year : Nat) : Bool :=
  match soup with
  | [] => false
  | link :: rest =>
    if yearFilter year link then
      match get_similarity_ratio title link with
      | .ok true => true
      | _ => check_rym rest title year
    else check_rym rest title year

/-- Instrumentation: how many times check_rym invokes
get_similarity_ratio (once per year-matching span up to and including the
first success). -/
def check_rym_calls (soup : List Span) (title : List Char) (year : Nat) : Nat :=
  match soup with
  | [] => 0
  | link :: rest =>
    if yearFilter year link then
      match get_similarity_ratio title link with
      | .ok true => 1
      | _ => 1 + check_rym_calls rest title year
    else check_rym_calls rest title year

theorem check_rym_iff (title : List Char) (year : Nat) : ∀ soup : List Span,
    check_rym soup title year = true ↔
      ∃ link ∈ soup, yearFilter year link = true ∧
        ∃ t, link.prevTitle = some t ∧
          minimum_similarity_score < similarity_ratio t title := by
  intro soup
  induction soup with
  | nil => simp [check_rym]
  | cons link rest ih =>
    by_cases hy : yearFilter year link = true
    · cases hp : link.prevTitle with
      | none =>
        have hgs : get_similarity_ratio title link = .error .attributeError := by
          simp [get_similarity_ratio, hp]
        simp only [check_rym, if_pos hy, hgs]
        rw [ih]
        simp [List.exists_mem_cons_iff, hp]
      | some t0 =>
        by_cases hr : minimum_similarity_score < similarity_ratio t0 title
        · have hgs : get_similarity_ratio title link = .ok true := by
            simp [get_similarity_ratio, hp, hr]
          simp only [check_rym, if_pos hy, hgs]
          constructor
          · intro _
            exact ⟨link, List.mem_cons_self link rest, hy, t0, hp, hr⟩
          · intro _
            trivial
        · have hgs : get_similarity_ratio title link = .ok false := by
            simp [get_similarity_ratio, hp, hr]
          simp only [check_rym, if_pos hy, hgs]
          rw [ih]
          simp [List.exists_mem_cons_iff, hy, hp, hr]
    · simp only [check_rym, if_neg hy]
      rw [ih]
      simp [List.exists_mem_cons_iff, hy]

theorem check_rym_calls_append (title : List Char) (year : Nat) (link : Span)
    (t0 : List Char) (hy : yearFilter year link = true)
    (hp : link.prevTitle = some t0)
    (hr : minimum_similarity_score < similarity_ratio t0 title) :
    ∀ pre post : List Span,
      (∀ l ∈ pre, ¬ (yearFilter year l = true ∧ ∃ t, l.prevTitle = some t ∧
        minimum_similarity_score < similarity_ratio t title)) →
      check_rym (pre ++ link :: post) title year = true ∧
      check_rym_calls (pre ++ link :: post) title year =
        check_rym_calls pre title year + 1 := by
  have hgs : get_similarity_ratio title link = .ok true := by
    simp [get_similarity_ratio, hp, hr]
  intro pre
  induction pre with
  | nil =>
    intro post _
    constructor
    · simp [check_rym, hy, hgs]
    · simp [check_rym_calls, hy, hgs]
  | cons l pre ih =>
    intro post hpre
    have hl := hpre l (List.mem_cons_self l pre)
    have hrest := ih post (fun x hx => hpre x (List.mem_cons_of_mem l hx))
    by_cases hyl : yearFilter year l = true
    · cases hpl : l.prevTitle with
      | none =>
        have hgl : get_similarity_ratio title l = .error .attributeError := by
          simp [get_similarity_ratio, hpl]
        constructor
        · simp only [List.cons_append, check_rym, if_pos hyl, hgl]
          exact hrest.1
        · simp only [List.cons_append, check_rym_calls, if_pos hyl, hgl,
            List.append_eq]
          rw [hrest.2]
          omega
      | some tl =>
        have hrl : ¬ minimum_similarity_score < similarity_ratio tl title := by
          intro hbad
          exact hl ⟨hyl, tl, hpl, hbad⟩
        have hgl : get_similarity_ratio title l = .ok false := by
          simp [get_similarity_ratio, hpl, hrl]
        constructor
        · simp only [List.cons_append, check_rym, if_pos hyl, hgl]
          exact hrest.1
        · simp only [List.cons_append, check_rym_calls, if_pos hyl, hgl,
            List.append_eq]
          rw [hrest.2]
          omega
    · constructor
      · simp only [List.cons_append, check_rym, if_neg hyl]
        exact hrest.1
      · simp only [List.cons_append, check_rym_calls, if_neg hyl, List.append_eq]
        rw [hrest.2]

/-! ## Claim C2: the matching verdict -/

/-- C2: the verdict is present exactly when some span passes the year
substring filter, its preceding title node exists, and the similarity ratio
of that title text against the target strictly exceeds the 0.6 threshold
(a ratio of exactly 0.6 therefore yields absent, as does an empty
fragment); and the first qualifying span short-circuits: the similarity
routine runs once per year-matching span of the non-qualifying prefix plus
once for the qualifying span, with the rest of the fragment never
examined. -/
theorem c2_fuzzy_match (soup : List Span) (title : List Char) (year : Nat) :
    (check_rym soup title year = true ↔
      ∃ link ∈ soup, yearFilter year link = true ∧
        ∃ t, link.prevTitle = some t ∧
          minimum_similarity_score < similarity_ratio t title) ∧
    check_rym [] title year = false ∧
    (∀ (pre post : List Span) (link : Span) (t0 : List Char),
      soup = pre ++ link :: post →
      (∀ l ∈ pre, ¬ (yearFilter year l = true ∧ ∃ t, l.prevTitle = some t ∧
        minimum_similarity_score < similarity_ratio t title)) →
      yearFilter year link = true →
      link.prevTitle = some t0 →
      minimum_similarity_score < similarity_ratio t0 title →
      check_rym soup title year = true ∧
      check_rym_calls soup title year = check_rym_calls pre title year + 1) := by
  refine ⟨check_rym_iff title year soup, rfl, ?_⟩
  intro pre post link t0 hsoup hpre hy hp hr
  subst hsoup
  exact check_rym_calls_append title year link t0 hy hp hr pre post hpre

def titleW : List Char := ['a', 'b', 'c', 'y', 'y']

/-- A span whose text does not contain the digits of 2010. -/
def spanMiss : Span := ⟨[['x']], some ['a', 'b', 'c', 'y', 'y']⟩

/-- A year-matching span whose preceding title equals the target (ratio
1). -/
def spanHit : Span := ⟨[['(', '2', '0', '1', '0', ')']], some ['a', 'b', 'c', 'y', 'y']⟩

/-- A year-matching span whose preceding title has ratio exactly 3/5
against titleW (3 of 10 characters match). -/
def spanBoundary : Span :=
  ⟨[['(', '2', '0', '1', '0', ')']], some ['a', 'b', 'c', 'x', 'x']⟩

/-- Witness for C2: with a non-matching prefix span, a perfect hit and a
trailing span, the verdict is present and exactly one more similarity call
than the prefix's is made (the trailing span is never examined); a lone
candidate at ratio exactly 3/5 yields absent. -/
theorem c2_witness :
    check_rym [spanMiss, spanHit, spanHit] titleW 2010 = true ∧
    check_rym_calls [spanMiss, spanHit, spanHit] titleW 2010 =
      check_rym_calls [spanMiss] titleW 2010 + 1 ∧
    check_rym [spanBoundary] titleW 2010 = false := by
  have h := (c2_fuzzy_match [spanMiss, spanHit, spanHit] titleW 2010).2.2
    [spanMiss] [spanHit] spanHit ['a', 'b', 'c', 'y', 'y'] rfl
    (by
      intro l hl
      simp only [List.mem_singleton] at hl
      subst hl
      rintro ⟨hyf, -⟩
      exact absurd hyf (by decide))
    (by decide) rfl (by decide)
  exact ⟨h.1, h.2, by decide⟩

/-! ## Claim C3: the Report Generator (create_non_rym_dataframe) -/

/-- Python `not` applied to a pandas Series: NDFrame.__bool__ raises
ValueError unconditionally ("The truth value of a Series is ambiguous.
Use a.empty, a.bool(), a.item(), a.any() or a.all()."), whatever the
series' length or content. -/
def seriesNot (_col : List (Option Bool)) : Except PyErr Bool :=
  .error .valueError

/-- create_non_rym_dataframe(dataframe):
dataframe.loc[not dataframe[in_rym], [imdb_id, title, year]].  Evaluating
`not dataframe[in_rym]` raises before .loc is reached; the projection
after the bind is therefore unreachable (were a scalar bool b produced, the
row selection with it is modelled as all-or-nothing). -/
def create_non_rym_dataframe (df : List Row) :
    Except PyErr (List (Option (List Char) × Option (List Char) × Option Nat)) := do
  let b ← seriesNot (df.map (fun r => r.in_rym))
  pure (if b then df.map (fun r => (r.imdb_id, r.title, r.year)) else [])

/-- The failing input of C3: three records with verdicts false, true and
unknown. -/
def dfC3 : List Row :=
  [⟨some ['t', 't', '1'], some ['a'], some 2000, some false⟩,
    ⟨some ['t', 't', '2'], some ['b'], some 2001, some true⟩,
    ⟨some ['t', 't', '3'], some ['c'], some 2002, none⟩]

/-- C3 evaluation: on the claim's three-record store the Report Generator
does not return the verdict-false record; it raises ValueError (as it does
on every store), because `not` on a pandas Series is rejected by
Series.__bool__. -/
theorem c3_always_raises :
    create_non_rym_dataframe dfC3 = .error .valueError ∧
    ∀ df : List Row, create_non_rym_dataframe df = .error .valueError :=
  ⟨rfl, fun _ => rfl⟩

end OmdbRym
